import Mathlib

/-!
Verification of the chatworthy conversation-export core.

The repository is a browser extension that classifies chat-transcript turns,
lets the user select user turns, expands the selection into contiguous turn
ranges, and renders the result to Markdown.  This file shallowly embeds the
relevant functions and proves (or refutes) the specified properties.

Conventions of the embedding:
* JavaScript strings are Lean `String`s (or `List Char` where character-level
  reasoning is needed); JavaScript numbers are embedded as an inductive
  `JSNum` covering NaN, the infinities and finite values (every finite IEEE
  double is a rational, so finite values carry a `ℚ`).
* Array indexing `a[i]` with an in-range integer `i` is `List.getD`;
  indexing with a non-integer yields `undefined` in JavaScript, so reading a
  property of it throws — embedded as `Except.error`.
* DOM trees are finite rose trees of elements carrying a class attribute and
  generic attributes; `querySelectorAll` is a filter over the preorder
  flattening (document order), `closest` a search through the ancestor chain.
-/

/-- Turn roles, from `types.ts` (`Role`). -/
inductive Role where
  | user
  | assistant
  | system
  | tool
deriving DecidableEq

/-- A turn record, from `types.ts` (`ExportTurn`): a role plus extracted
plain text.  (The optional `time` field is irrelevant to every claim and is
omitted.) -/
structure ExportTurn where
  role : Role
  text : String
deriving DecidableEq

/-- Placeholder turn used as the default of `List.getD`; every indexed read
in the embedding is guarded exactly where the source guards it, so the
default is never observable. -/
def defaultTurn : ExportTurn := ⟨Role.assistant, ""⟩

/-! ## Selection-range expansion (`content.ts`, `buildSelectedPayload`)

The loop body for one selected index `uIdx` with range end `nextU`:
push `allTurns[uIdx]` when `0 ≤ uIdx < allTurns.length`, then push
`allTurns[j]` for `j` in `[uIdx+1, nextU)` with the same bound guard. -/

/-- One iteration of the `buildSelectedPayload` loop in `content.ts`
(lines 175–190): the selected turn (bound-guarded) followed by the guarded
half-open run `[uIdx+1, nextU)`. -/
def expandOne (turns : List ExportTurn) (uIdx nextU : Nat) : List ExportTurn :=
  (if uIdx < turns.length then [turns.getD uIdx defaultTurn] else [])
    ++ (((List.range' (uIdx + 1) (nextU - (uIdx + 1))).filter
          (fun j => decide (j < turns.length))).map (fun j => turns.getD j defaultTurn))

/-- The full `buildSelectedPayload` expansion loop of `content.ts`: the range
end for entry `i` is entry `i+1`, or `allTurns.length` for the last entry. -/
def expandSelection (turns : List ExportTurn) : List Nat → List ExportTurn
  | [] => []
  | uIdx :: rest =>
      expandOne turns uIdx (rest.headD turns.length) ++ expandSelection turns rest

/-- Specification-side description of one expanded range: the turns at the
half-open index interval `[a, b)`. -/
def sliceIdx (turns : List ExportTurn) (a b : Nat) : List ExportTurn :=
  (List.range' a (b - a)).map (fun j => turns.getD j defaultTurn)

/-- Specification-side description of the `ExpandedRange` list: each selection
entry paired with the next entry, the last paired with `len`. -/
def selRanges (len : Nat) : List Nat → List (Nat × Nat)
  | [] => []
  | u :: rest => (u, rest.headD len) :: selRanges len rest

/-! ## Raw-selection validation (`part_002`, `buildSelectedPayload` lines 205–214)

The raw selection is a list of JavaScript numbers.  The pipeline is
`map Number → filter Number.isFinite → dedupe (indexOf) → sort (a-b) →
filter (idx >= 0 && idx < allTurns.length && allTurns[idx].role === 'user')`.
`Number.isFinite` accepts non-integers; for a finite non-integer `idx` in
`[0, turnCount)`, `allTurns[idx]` is `undefined` and reading `.role` throws a
TypeError, embedded as `Except.error`. -/

/-- A JavaScript number: NaN, an infinity, or a finite value (every finite
IEEE double is a rational). -/
inductive JSNum where
  | nan
  | posInf
  | negInf
  | fin (q : ℚ)
deriving DecidableEq

/-- `Number.isFinite`. -/
def isFiniteJS : JSNum → Bool
  | .fin _ => true
  | _ => false

/-- The `map(Number)`+`filter(Number.isFinite)` stage: the finite values of
the raw selection, in order. -/
def jsFinites (raw : List JSNum) : List ℚ :=
  raw.filterMap (fun n => match n with | .fin q => some q | _ => none)

/-- The `filter((n, i, arr) => arr.indexOf(n) === i)` stage: keep the first
occurrence of each value. -/
def dedupKeepFirstAux (seen : List ℚ) : List ℚ → List ℚ
  | [] => []
  | q :: qs =>
      if q ∈ seen then dedupKeepFirstAux seen qs
      else q :: dedupKeepFirstAux (q :: seen) qs

/-- Keep-first deduplication of the finite selection values. -/
def dedupKeepFirst (l : List ℚ) : List ℚ := dedupKeepFirstAux [] l

/-- The `sort((a, b) => a - b)` stage: ascending numeric sort. -/
def sortSelection (l : List ℚ) : List ℚ := l.insertionSort (· ≤ ·)

/-- The final validation filter of `part_002`:
`idx >= 0 && idx < allTurns.length && allTurns[idx].role === 'user'`,
evaluated left to right.  For a finite non-integer `idx` that passes the two
range tests, `allTurns[idx]` is `undefined` and `.role` throws. -/
def filterValidSel (turns : List ExportTurn) : List ℚ → Except Unit (List ℚ)
  | [] => .ok []
  | q :: qs =>
      if q < 0 then filterValidSel turns qs
      else if (turns.length : ℚ) ≤ q then filterValidSel turns qs
      else if q.den = 1 then
        if (turns.getD q.num.toNat defaultTurn).role = Role.user then
          (filterValidSel turns qs).map (fun l => q :: l)
        else filterValidSel turns qs
      else .error ()

/-- The whole validation pipeline of `part_002` `buildSelectedPayload`. -/
def validateSelection (turns : List ExportTurn) (raw : List JSNum) :
    Except Unit (List ℚ) :=
  filterValidSel turns (sortSelection (dedupKeepFirst (jsFinites raw)))

/-- One iteration of the `part_002` expansion loop (lines 219–231):
`start = max 0 (min uIdx len)`, `end = max (start+1) (min nextCut len)`,
then every turn in `[start, end)` (indexed directly, no per-element guard). -/
def expandOneClamped (turns : List ExportTurn) (uIdx nextCut : Nat) :
    List ExportTurn :=
  let s := min uIdx turns.length
  let e := max (s + 1) (min nextCut turns.length)
  (List.range' s (e - s)).map (fun j => turns.getD j defaultTurn)

/-- The `part_002` expansion loop over the validated selection. -/
def expandSelectionClamped (turns : List ExportTurn) : List Nat → List ExportTurn
  | [] => []
  | uIdx :: rest =>
      expandOneClamped turns uIdx (rest.headD turns.length)
        ++ expandSelectionClamped turns rest

/-- `buildSelectedPayload` of `part_002`: validate the raw selection, return
the empty payload when nothing valid remains, otherwise expand. -/
def buildSelectedPayloadP2 (turns : List ExportTurn) (raw : List JSNum) :
    Except Unit (List ExportTurn) :=
  (validateSelection turns raw).map (fun sel =>
    if sel.isEmpty then []
    else expandSelectionClamped turns (sel.map (fun q => q.num.toNat)))

/-- Specification-side description of the valid entries: finite entries,
deduplicated and sorted, that are in `[0, turnCount)` and reference a
user-role turn. -/
def specValidEntries (turns : List ExportTurn) (raw : List JSNum) : List ℚ :=
  (sortSelection (dedupKeepFirst (jsFinites raw))).filter
    (fun q => decide (0 ≤ q) && decide (q < (turns.length : ℚ)) &&
      decide ((turns.getD q.num.toNat defaultTurn).role = Role.user))

/-! ## Turn classification (`content.ts`, `getMessageTuples`, lines 110–147)

The DOM is a rose tree of elements.  `querySelectorAll` returns matches in
document order, i.e. a filter of the preorder flattening; `closest` searches
the element itself and then its ancestors nearest-first.  Element identity
(the `WeakSet` of seen nodes) is modelled by a numeric element id.  The
`data-cw-role` tagging performed by the classifier does not influence any
selector the classifier itself consults, so the pass is modelled purely. -/

/-- A DOM element: identity, the raw `class` attribute, other attributes. -/
structure Elem where
  eid : Nat
  className : String
  attrs : List (String × String)
deriving DecidableEq

/-- A DOM subtree. -/
inductive DomTree where
  | node (el : Elem) (kids : List DomTree)

mutual

/-- Preorder flattening paired with each element's ancestor chain
(nearest ancestor first). -/
def flattenWithAnc (anc : List Elem) : DomTree → List (Elem × List Elem)
  | .node el kids => (el, anc) :: flattenWithAncL (el :: anc) kids

/-- Preorder flattening of a forest. -/
def flattenWithAncL (anc : List Elem) : List DomTree → List (Elem × List Elem)
  | [] => []
  | t :: ts => flattenWithAnc anc t ++ flattenWithAncL anc ts

end

/-- Split a character list at every space — the semantics of
`String.splitOn " "` used to read a class attribute as a class list. -/
def splitOnSpace : List Char → List (List Char)
  | [] => [[]]
  | c :: cs =>
      match splitOnSpace cs with
      | [] => [[]]
      | w :: ws => if c = ' ' then [] :: w :: ws else (c :: w) :: ws

/-- CSS class-list membership (`.foo` selector). -/
def hasClass (e : Elem) (c : String) : Bool :=
  (splitOnSpace e.className.toList).contains c.toList

/-- Naive substring test, the semantics of the CSS `[class*=...]` attribute
substring selector. -/
def isSubstring (pat : List Char) : List Char → Bool
  | [] => pat.isEmpty
  | c :: rest => pat.isPrefixOf (c :: rest) || isSubstring pat rest

/-- The selector `.items-end, [class*="items-end"]` used for user
containers: a class named `items-end`, or the substring `items-end`
anywhere in the class attribute (the class test is subsumed by the
substring test only when classes are space-separated, so both are kept). -/
def matchesItemsEnd (e : Elem) : Bool :=
  hasClass e "items-end" || isSubstring "items-end".toList e.className.toList

/-- Attribute lookup (`getAttribute`). -/
def getAttr (e : Elem) (k : String) : Option String := e.attrs.lookup k

/-- `el.closest(sel)`: the element itself, else the nearest matching
ancestor. -/
def closestMatch (p : Elem → Bool) (self : Elem) (anc : List Elem) :
    Option Elem :=
  (self :: anc).find? p

/-- `.user-message-bubble-color` matcher. -/
def isUserBubble (e : Elem) : Bool := hasClass e "user-message-bubble-color"

/-- `.markdown.prose` matcher. -/
def isMarkdownProse (e : Elem) : Bool := hasClass e "markdown" && hasClass e "prose"

/-- One seen-set-guarded classification pass: for each flattened element, an
optional classification produced by the pass's rule; an element already in
the seen set is skipped, otherwise it is recorded and appended. -/
def classifyFold (f : Elem × List Elem → Option (Elem × Role))
    (acc : List Nat × List (Elem × Role)) :
    List (Elem × List Elem) → List Nat × List (Elem × Role)
  | [] => acc
  | x :: rest =>
      match f x with
      | none => classifyFold f acc rest
      | some (el, r) =>
          if el.eid ∈ acc.1 then classifyFold f acc rest
          else classifyFold f (el.eid :: acc.1, acc.2 ++ [(el, r)]) rest

/-- Rule of the USER pass of `getMessageTuples` (`content.ts`): a
`.user-message-bubble-color` node contributes its closest
`.items-end`-style container (falling back to the bubble itself). -/
def userRule (x : Elem × List Elem) : Option (Elem × Role) :=
  if isUserBubble x.1 then
    some ((closestMatch matchesItemsEnd x.1 x.2).getD x.1, Role.user)
  else none

/-- Rule of the ASSISTANT pass: a `.markdown.prose` node not inside an
`.items-end`-style container contributes itself. -/
def assistantRule (x : Elem × List Elem) : Option (Elem × Role) :=
  if isMarkdownProse x.1 then
    if (closestMatch matchesItemsEnd x.1 x.2).isSome then none
    else some (x.1, Role.assistant)
  else none

/-- Rule of the legacy pass: a node with `data-message-author-role` equal to
`user` or `assistant` (lower-cased) contributes itself. -/
def legacyRule (x : Elem × List Elem) : Option (Elem × Role) :=
  match getAttr x.1 "data-message-author-role" with
  | none => none
  | some v =>
      if v.toList.map Char.toLower = "user".toList then some (x.1, Role.user)
      else if v.toList.map Char.toLower = "assistant".toList then
        some (x.1, Role.assistant)
      else none

/-- `getMessageTuples` of `content.ts` (lines 110–147): three grouped
`querySelectorAll` passes — all user bubbles first, then all assistant
prose blocks, then legacy role-attribute nodes — sharing one seen set. -/
def getMessageTuplesGrouped (doc : DomTree) : List (Elem × Role) :=
  let flat := flattenWithAnc [] doc
  let acc1 := classifyFold userRule ([], []) flat
  let acc2 := classifyFold assistantRule acc1 flat
  (classifyFold legacyRule acc2 flat).2

/-- Preorder list of element ids: document order. -/
def docOrder (doc : DomTree) : List Nat :=
  (flattenWithAnc [] doc).map (fun p => p.1.eid)

/-- Index of an element id in document order. -/
def docIndexOf (doc : DomTree) (i : Nat) : Nat := (docOrder doc).indexOf i

/-- Example document: an assistant `.markdown.prose` block appearing in the
document BEFORE a user bubble inside an `.items-end` container. -/
def exDoc : DomTree :=
  .node ⟨0, "", []⟩
    [.node ⟨1, "markdown prose", []⟩ [],
     .node ⟨2, "items-end", []⟩ [.node ⟨3, "user-message-bubble-color", []⟩ []]]

/-! ## Turn extraction deduplication (`content.ts`, hardened variant,
`extractTurns` lines 805–845)

`const key = t.role + '|' + (t.text || '').slice(0, 80)` with a global
`Set` of seen keys; a turn whose key was already seen is dropped.  Keys are
embedded as character lists (`role ++ '|' ++ first 80 characters`). -/

/-- The role name as it appears in a deduplication key. -/
def roleStr : Role → String
  | .user => "user"
  | .assistant => "assistant"
  | .system => "system"
  | .tool => "tool"

/-- The deduplication key `role + '|' + text.slice(0, 80)`. -/
def turnKey (t : ExportTurn) : List Char :=
  (roleStr t.role).toList ++ '|' :: t.text.toList.take 80

/-- The seen-set deduplication loop of `extractTurns`. -/
def dedupTurnsAux (seen : List (List Char)) : List ExportTurn → List ExportTurn
  | [] => []
  | t :: ts =>
      if turnKey t ∈ seen then dedupTurnsAux seen ts
      else t :: dedupTurnsAux (turnKey t :: seen) ts

/-- Deduplication stage of `extractTurns`: keep a turn only when its
`(role, first-80-characters)` key has not been seen before. -/
def dedupTurns (ts : List ExportTurn) : List ExportTurn := dedupTurnsAux [] ts

/-- Specification-side keep-first deduplication: keep each turn and drop
every LATER turn with the same key. -/
def specDedup : List ExportTurn → List ExportTurn
  | [] => []
  | t :: ts =>
      t :: specDedup (ts.filter (fun u => decide (turnKey u ≠ turnKey t)))
termination_by l => l.length
decreasing_by
  simp only [List.length_cons]
  exact Nat.lt_succ_of_le (List.length_filter_le _ _)

/-! ## Front-matter escaping (`exporters.ts`, `yamlEscape`, lines 3–6)

`return '"' + val.replace(/\\/g,'\\\\').replace(/"/g,'\\"').replace(/\n/g,'\\n') + '"'`
— three chained single-character global replaces, then wrapping quotes.
Strings are embedded as character lists. -/

/-- Single-character global replace: the semantics of one
`.replace(/c/g, r)` call whose pattern is a single character. -/
def replaceChar (c : Char) (r : List Char) : List Char → List Char
  | [] => []
  | x :: xs => (if x = c then r else [x]) ++ replaceChar c r xs

/-- `yamlEscape` of `exporters.ts`: double every backslash, escape every
double quote, replace every newline by backslash-n, and wrap the result in
double quotes. -/
def yamlEscape (s : List Char) : List Char :=
  '"' :: (replaceChar '\n' ['\\', 'n']
    (replaceChar '"' ['\\', '"']
      (replaceChar '\\' ['\\', '\\'] s))) ++ ['"']

/-- Single-pass form of the escape body (the three replaces do not
interfere: backslashes introduced by later stages are never re-examined). -/
def escBody : List Char → List Char
  | [] => []
  | c :: cs =>
      (if c = '\\' then ['\\', '\\']
       else if c = '"' then ['\\', '"']
       else if c = '\n' then ['\\', 'n']
       else [c]) ++ escBody cs

/-- The documented unescape rule for a front-matter field body:
`\\` becomes a backslash, `\"` a double quote, `\n` a newline; anything
else is copied verbatim. -/
def unescapeBody : List Char → List Char
  | [] => []
  | c :: cs =>
      if c = '\\' then
        match cs with
        | [] => [c]
        | d :: ds =>
            if d = '\\' then '\\' :: unescapeBody ds
            else if d = '"' then '"' :: unescapeBody ds
            else if d = 'n' then '\n' :: unescapeBody ds
            else c :: d :: unescapeBody ds
      else c :: unescapeBody cs

/-- The documented unescape rule for a whole serialized field: strip the
surrounding double quotes, then decode the escape sequences. -/
def unescapeField (l : List Char) : List Char :=
  unescapeBody (l.drop 1).dropLast

/-! ## Plain-mode rendering (`exporters.ts`, `toPureMarkdownChatStyle`,
lines 262–310, with `renderFrontMatter` lines 221–243)

The `markdown_pure` renderer: front-matter block, `# title`, blank line,
`Source:`/`Exported:` rows, blank line, then per-turn blocks
`**<label>:**␠␠\n<body>` joined with `\n---\n\n`, with a final blank line
appended when the document does not already end in one.  The body is the
turn text with CRLF normalized and trailing whitespace trimmed. -/

/-- A turn with character-list text, for character-level rendering. -/
structure CTurn where
  role : Role
  text : List Char

/-- The metadata fields consumed by `renderFrontMatter` /
`toPureMarkdownChatStyle`; `none` is JavaScript `undefined`/`null`. -/
structure CMeta where
  noteId : Option (List Char)
  source : Option (List Char)
  chatId : Option (List Char)
  chatTitle : Option (List Char)
  pageUrl : Option (List Char)
  exportedAt : Option (List Char)
  model : Option (List Char)
  subject : Option (List Char)
  topic : Option (List Char)
  summary : Option (List Char)
  tags : Option (List (List Char))

/-- Join chunks with a separator — `Array.prototype.join`. -/
def joinSep (sep : List Char) : List (List Char) → List Char
  | [] => []
  | [b] => b
  | b :: b2 :: bs => b ++ sep ++ joinSep sep (b2 :: bs)

/-- `v === undefined || v === null || v === ''` guard of `pushIf`: emit the
`k: v` front-matter line only for a present, non-empty string. -/
def pushIfStr (k : List Char) (v : Option (List Char)) : List (List Char) :=
  match v with
  | none => []
  | some s => if s = [] then [] else [k ++ ": ".toList ++ s]

/-- `JSON.stringify` of an array of tag strings, as `pushIf` renders the
`tags` field (tag-internal escaping is irrelevant to the claims). -/
def jsonArr (xs : List (List Char)) : List Char :=
  '[' :: (joinSep ", ".toList (xs.map (fun x => '"' :: x ++ ['"'])) ++ "]".toList)

/-- `renderFrontMatter` (`exporters.ts` lines 221–243): `---`, one `k: v`
line per present non-empty field in fixed order, `---`, and a trailing
empty line, joined by newlines. -/
def renderFrontMatterC (m : CMeta) : List Char :=
  joinSep ['\n']
    (["---".toList]
      ++ pushIfStr "noteId".toList m.noteId
      ++ pushIfStr "source".toList m.source
      ++ pushIfStr "chatId".toList m.chatId
      ++ pushIfStr "chatTitle".toList m.chatTitle
      ++ pushIfStr "pageUrl".toList m.pageUrl
      ++ pushIfStr "exportedAt".toList m.exportedAt
      ++ pushIfStr "model".toList m.model
      ++ pushIfStr "subject".toList m.subject
      ++ pushIfStr "topic".toList m.topic
      ++ pushIfStr "summary".toList m.summary
      ++ (match m.tags with
          | none => []
          | some ts => ["tags: ".toList ++ jsonArr ts])
      ++ ["---".toList, []])

/-- JavaScript `||` on possibly-absent strings (empty string is falsy). -/
def orDefault (v : Option (List Char)) (d : List Char) : List Char :=
  match v with
  | none => d
  | some s => if s = [] then d else s

/-- Truthiness of a possibly-absent string. -/
def isTruthy (v : Option (List Char)) : Bool :=
  match v with
  | none => false
  | some s => decide (s ≠ [])

/-- `.replace(/\r\n/g, '\n')`. -/
def replaceCRLF : List Char → List Char
  | [] => []
  | c :: cs =>
      if c = '\r' then
        match cs with
        | '\n' :: rest => '\n' :: replaceCRLF rest
        | other => c :: replaceCRLF other
      else c :: replaceCRLF cs

/-- JavaScript whitespace for `trimEnd`: ECMAScript trims WhiteSpace and
LineTerminator, i.e. TAB U+0009, LF U+000A, VT U+000B, FF U+000C,
CR U+000D, LS U+2028, PS U+2029, ZWNBSP U+FEFF, and the Space_Separator
category (U+0020, NBSP U+00A0, U+1680, U+2000–U+200A, NNBSP U+202F,
MMSP U+205F, IDEOGRAPHIC SPACE U+3000). -/
def isWsJS (c : Char) : Bool :=
  c.toNat = 0x09 || c.toNat = 0x0A || c.toNat = 0x0B || c.toNat = 0x0C ||
  c.toNat = 0x0D || c.toNat = 0x20 || c.toNat = 0xA0 || c.toNat = 0x1680 ||
  (0x2000 ≤ c.toNat && c.toNat ≤ 0x200A) ||
  c.toNat = 0x2028 || c.toNat = 0x2029 || c.toNat = 0x202F ||
  c.toNat = 0x205F || c.toNat = 0x3000 || c.toNat = 0xFEFF

/-- `String.prototype.trimEnd`. -/
def trimEndC (s : List Char) : List Char :=
  (s.reverse.dropWhile isWsJS).reverse

/-- `roleLabel` (`exporters.ts` lines 214–219). -/
def roleLabelC : Role → List Char
  | .user => "You".toList
  | .assistant => "ChatGPT".toList
  | .system => "System".toList
  | .tool => "Tool".toList

/-- One turn block: `**<label>:**␠␠` then the normalized body on the
following lines. -/
def turnBlock (t : CTurn) : List Char :=
  "**".toList ++ roleLabelC t.role ++ ":**  ".toList
    ++ '\n' :: trimEndC (replaceCRLF t.text)

/-- The separator written between blocks when `hrBetween` holds. -/
def sepHr : List Char := "\n---\n\n".toList

/-- `toPureMarkdownChatStyle` with its default options (front matter and
meta row included, horizontal rules between turns, no freeform notes) —
exactly the configuration `buildMarkdownExportByFormat` uses for
`markdown_pure`. -/
def toPureMarkdownChatStyleC (m : CMeta) (turns : List CTurn) : List Char :=
  let out : List (List Char) :=
    [renderFrontMatterC m]
      ++ [("# ".toList ++ orDefault m.chatTitle "Chat Export".toList)] ++ [[]]
      ++ (if isTruthy m.pageUrl then
            [("Source: ".toList ++ (m.pageUrl.getD []))] else [])
      ++ (if isTruthy m.exportedAt then
            [("Exported: ".toList ++ (m.exportedAt.getD []))] else [])
      ++ [[]]
      ++ [joinSep sepHr (turns.map turnBlock)]
  let out2 := if out.getLast? = some [] then out else out ++ [[]]
  joinSep ['\n'] out2

/-- Split a character list at every newline into lines (the inverse view of
joining with `'\n'`). -/
def splitNL : List Char → List (List Char)
  | [] => [[]]
  | c :: cs =>
      match splitNL cs with
      | [] => [[]]
      | w :: ws => if c = '\n' then [] :: w :: ws else (c :: w) :: ws

/-- Stripping, step 1: drop the front-matter block — everything from a
leading `---` line through the closing `---` line. -/
def dropThroughDashes : List (List Char) → List (List Char)
  | [] => []
  | l :: rest => if l = "---".toList then rest else dropThroughDashes rest

/-- Stripping, step 1 (entry): only strip when the document opens with a
front-matter fence. -/
def dropFM : List (List Char) → List (List Char)
  | [] => []
  | l :: rest => if l = "---".toList then dropThroughDashes rest else l :: rest

/-- A preamble line added by the renderer: blank, title heading, or a
`Source:` / `Exported:` meta row. -/
def isPreambleLine (l : List Char) : Bool :=
  l.isEmpty || "# ".toList.isPrefixOf l || "Source: ".toList.isPrefixOf l
    || "Exported: ".toList.isPrefixOf l

/-- Stripping, steps 2–3: drop the title heading, meta rows and blank lines
that precede the first turn block. -/
def dropPreamble (ls : List (List Char)) : List (List Char) :=
  ls.dropWhile isPreambleLine

/-- Stripping, step 4: walk the turn blocks dropping each `**<label>:**`
line (when the flag says a block starts here) and each `---`-plus-blank
separator pair, keeping every body line. -/
def stripTurnLines : Bool → List (List Char) → List (List Char)
  | _, [] => []
  | true, _ :: rest => stripTurnLines false rest
  | false, l :: rest =>
      match rest with
      | [] => [l]
      | r :: rs =>
          if l = "---".toList ∧ r = [] then stripTurnLines true rs
          else l :: stripTurnLines false (r :: rs)

/-- The whole stripper: remove every structural marker the plain-mode
renderer adds (front matter, title heading, meta rows, role labels,
separators, trailing blank line) and join the surviving body lines back
with newlines. -/
def stripPlainC (s : List Char) : List Char :=
  joinSep ['\n']
    (stripTurnLines true
      (if (dropPreamble (dropFM (splitNL s))).getLast? = some [] then
        (dropPreamble (dropFM (splitNL s))).dropLast
      else dropPreamble (dropFM (splitNL s))))

/-- The concrete metadata used to instantiate the round-trip statements:
the shape `buildExportFromTurns` produces (note id, source, title, url,
timestamp and an empty tag list present; everything else absent). -/
def exMeta : CMeta :=
  { noteId := some "ext-1".toList
    source := some "chatgpt".toList
    chatId := none
    chatTitle := some "T".toList
    pageUrl := some "u".toList
    exportedAt := some "e".toList
    model := none
    subject := none
    topic := none
    summary := none
    tags := some [] }

/-- The label line of one turn block. -/
def labelLine (r : Role) : List Char :=
  "**".toList ++ roleLabelC r ++ ":**  ".toList

/-- The normalized body the renderer writes for a turn. -/
def bodyOf (t : CTurn) : List Char := trimEndC (replaceCRLF t.text)

/-- Line-level view of the joined turn blocks: label line, body lines, and
a `---`-plus-blank separator before each following block. -/
def blockLines : List CTurn → List (List Char)
  | [] => []
  | t :: rest =>
      labelLine t.role ::
        (splitNL (bodyOf t) ++
          match rest with
          | [] => []
          | _ :: _ => "---".toList :: [] :: blockLines rest)

/-- A turn text that survives the renderer's normalization untouched: no
carriage return, no trailing whitespace, and no line equal to `---`. -/
def goodText (s : List Char) : Prop :=
  '\r' ∉ s ∧ trimEndC s = s ∧ "---".toList ∉ splitNL s

/-! ## Table of contents and anchors (Markdown renderer, spec §4.4)

The TOC-generating exporter is code of this repository that is not under
`src/`: only `scripts/golden-check.ts` references its output (the
`## Table of Contents` heading and `<a id="p-N"></a>` anchor lines), so the
builder itself is modelled from the spec. -/

/-- Modelled from the spec: the decimal digit characters of an anchor
ordinal. -/
def digitChar (d : Nat) : Char :=
  if d = 0 then '0' else if d = 1 then '1' else if d = 2 then '2'
  else if d = 3 then '3' else if d = 4 then '4' else if d = 5 then '5'
  else if d = 6 then '6' else if d = 7 then '7' else if d = 8 then '8'
  else '9'

/-- Modelled from the spec: decimal rendering of an anchor ordinal. -/
def natDigits (n : Nat) : List Char :=
  if h : n < 10 then [digitChar n]
  else natDigits (n / 10) ++ [digitChar (n % 10)]
decreasing_by
  exact Nat.div_lt_self (by omega) (by omega)

/-- Decimal decoding, the inverse used to show anchor rendering is
injective. -/
def decodeDigits (l : List Char) : Nat :=
  l.foldl (fun acc c => acc * 10 + (c.toNat - 48)) 0

/-- Modelled from the spec: the per-turn anchor `p-<ordinal>`. -/
def anchorOf (k : Nat) : List Char := 'p' :: '-' :: natDigits k

/-- A table-of-contents entry: the 1-based user-turn ordinal and the
anchor it links to. -/
structure TocEntry where
  ordinal : Nat
  anchor : List Char
deriving DecidableEq

/-- Modelled from the spec: walk the turns keeping a count of user turns
seen so far; every `user` turn contributes one TOC entry whose ordinal is
the updated count and whose anchor is `p-<ordinal>`. -/
def tocEntriesAux (seen : Nat) : List ExportTurn → List TocEntry
  | [] => []
  | t :: rest =>
      if t.role = Role.user then
        ⟨seen + 1, anchorOf (seen + 1)⟩ :: tocEntriesAux (seen + 1) rest
      else tocEntriesAux seen rest

/-- Modelled from the spec: the table of contents of one render. -/
def tocEntries (turns : List ExportTurn) : List TocEntry :=
  tocEntriesAux 0 turns

/-!
## C8: ensureFloatingUI suspend/try/finally (content.ts 432-590, part_002 543-744)

Both drafts follow the shape
`ensureStyles(); suspendObservers(true); try { <rebuild> } finally { suspendObservers(false); }`
and nothing inside the try block touches `observersSuspended`. The rebuild
body is modelled as an arbitrary fallible DOM transformer `D → Except E D`;
`suspendObserversF v` models `suspendObservers(v)` (plain assignment).
-/

def suspendObserversF (v : Bool) (_s : Bool) : Bool := v

structure EnsureResult (E D : Type) where
  err : Option E
  observersSuspended : Bool
  dom : D

def ensureFloatingUIRun {E D : Type} (body : D → Except E D)
    (suspended : Bool) (dom : D) : EnsureResult E D :=
  match body dom with
  | Except.ok d2 =>
      { err := none
        observersSuspended := suspendObserversF false (suspendObserversF true suspended)
        dom := d2 }
  | Except.error e =>
      { err := some e
        observersSuspended := suspendObserversF false (suspendObserversF true suspended)
        dom := dom }

/-!
## C9/C10: mutation observer callback, throttle and scheduling
(content.ts 673-720 and 992-1013, part_002 810-830)

State of the observer machinery:  `suspended` is `observersSuspended`,
`rootExists` says whether `document.getElementById(ROOT_ID)` is non-null,
`lastRun` is `lastObserverRun` (performance.now in ms, initially 0),
`scheduled` the `scheduled` flag, and `runs` counts completed reactions
(executions of the rAF/idle `run` body).  A mutation batch is a list of
booleans, one per MutationRecord: `true` iff `root.contains(m.target)`.
-/

def OBSERVER_THROTTLE_MS : Nat := 200

structure MState where
  suspended : Bool
  rootExists : Bool
  lastRun : Nat
  scheduled : Bool
  runs : Nat
deriving DecidableEq

def observerCallback (t : Nat) (batch : List Bool) (s : MState) : MState :=
  if s.suspended then s
  else if s.rootExists && batch.any id then s
  else if t - s.lastRun < OBSERVER_THROTTLE_MS then s
  else if s.scheduled then { s with lastRun := t }
  else { s with lastRun := t, scheduled := true }

def rafRun (s : MState) : MState :=
  if s.scheduled then { s with scheduled := false, runs := s.runs + 1 } else s

inductive MEvent where
  | notify (t : Nat) (batch : List Bool)
  | rafFire
deriving DecidableEq

def mstep (s : MState) : MEvent → MState
  | MEvent.notify t batch => observerCallback t batch s
  | MEvent.rafFire => rafRun s

def mrun (s : MState) (evs : List MEvent) : MState := evs.foldl mstep s

def m0 : MState :=
  { suspended := false, rootExists := false, lastRun := 0,
    scheduled := false, runs := 0 }

def mSelf : MState :=
  { suspended := false, rootExists := true, lastRun := 0,
    scheduled := false, runs := 0 }

/-! ## Theorems -/

theorem expandOne_eq_sliceIdx (turns : List ExportTurn) (u next : Nat)
    (hu : u < turns.length) (hun : u < next) (hnext : next ≤ turns.length) :
    expandOne turns u next = sliceIdx turns u next := by
  unfold expandOne sliceIdx
  rw [if_pos hu]
  have hfilter :
      (List.range' (u + 1) (next - (u + 1))).filter
          (fun j => decide (j < turns.length)) =
        List.range' (u + 1) (next - (u + 1)) := by
    apply List.filter_eq_self.mpr
    intro a ha
    have := List.mem_range'_1.mp ha
    have ha2 : a < u + 1 + (next - (u + 1)) := this.2
    have : a < next := by omega
    simpa using Nat.lt_of_lt_of_le this hnext
  rw [hfilter]
  have hsucc : next - u = (next - (u + 1)) + 1 := by omega
  rw [hsucc, List.range'_succ, List.map_cons]
  rfl

/-- C1 (amended): for an ordered turn list and a sorted, deduplicated
selection of valid user-turn positions, the selection-range expansion of
`buildSelectedPayload` (`content.ts`) is the concatenation, over selection
entries in ascending order, of the turns in `[start, end)` where `end` is
the next selection entry or the turn count for the last entry.  (The
original claim's particular consequence — selection `{0}` on a four-turn
document exporting only the first two turns — is false: for the last
selection entry the range end is the turn count, so `{0}` exports all four
turns; see the counterexample below.) -/
theorem expandSelection_eq_ranges (turns : List ExportTurn) (sel : List Nat)
    (hsort : List.Chain' (· < ·) sel)
    (hvalid : ∀ u ∈ sel, u < turns.length)
    (huser : ∀ u ∈ sel, (turns.getD u defaultTurn).role = Role.user) :
    expandSelection turns sel =
      ((selRanges turns.length sel).map (fun p => sliceIdx turns p.1 p.2)).flatten := by
  clear huser
  induction sel with
  | nil => rfl
  | cons u rest ih =>
      have hu : u < turns.length := hvalid u (by simp)
      have hnext : rest.headD turns.length ≤ turns.length := by
        cases rest with
        | nil => simp
        | cons v vs => exact Nat.le_of_lt (hvalid v (by simp))
      have hun : u < rest.headD turns.length := by
        cases rest with
        | nil => simpa using hu
        | cons v vs => simpa using (List.chain'_cons.mp hsort).1
      have hrest : List.Chain' (· < ·) rest := hsort.tail
      have hvrest : ∀ v ∈ rest, v < turns.length := fun v hv => hvalid v (by simp [hv])
      simp only [expandSelection, selRanges, List.map_cons, List.flatten_cons]
      rw [expandOne_eq_sliceIdx turns u (rest.headD turns.length) hu hun hnext,
        ih hrest hvrest]

/-- C1 counterexample: on the spec's four-turn document
`[user, assistant, user, assistant]` with Selection `{0}`, the code exports
all four turns (the range end for the last — here only — entry is the turn
count, giving the range `[0,4)`), not "exactly the first two turns" as the
claim states. -/
theorem expandSelection_single_zero_counterexample :
    expandSelection
        [⟨Role.user, "Fix the leak"⟩, ⟨Role.assistant, "Turn off the valve"⟩,
         ⟨Role.user, "Now what?"⟩, ⟨Role.assistant, "Call a plumber"⟩] [0] =
      [⟨Role.user, "Fix the leak"⟩, ⟨Role.assistant, "Turn off the valve"⟩,
       ⟨Role.user, "Now what?"⟩, ⟨Role.assistant, "Call a plumber"⟩] ∧
    ([⟨Role.user, "Fix the leak"⟩, ⟨Role.assistant, "Turn off the valve"⟩,
      ⟨Role.user, "Now what?"⟩, ⟨Role.assistant, "Call a plumber"⟩] :
        List ExportTurn) ≠
      [⟨Role.user, "Fix the leak"⟩, ⟨Role.assistant, "Turn off the valve"⟩] := by
  constructor
  · decide
  · decide

/-- Concrete witness for the amended C1, matching the spec's other scenario:
selection `{0, 2}` on the four-turn document yields the two ranges `[0,2)`
and `[2,4)`, i.e. all four turns in order. -/
theorem expandSelection_eq_ranges_witness :
    expandSelection
        [⟨Role.user, "Fix the leak"⟩, ⟨Role.assistant, "Turn off the valve"⟩,
         ⟨Role.user, "Now what?"⟩, ⟨Role.assistant, "Call a plumber"⟩] [0, 2] =
      [⟨Role.user, "Fix the leak"⟩, ⟨Role.assistant, "Turn off the valve"⟩,
       ⟨Role.user, "Now what?"⟩, ⟨Role.assistant, "Call a plumber"⟩] := by
  have h := expandSelection_eq_ranges
    [⟨Role.user, "Fix the leak"⟩, ⟨Role.assistant, "Turn off the valve"⟩,
     ⟨Role.user, "Now what?"⟩, ⟨Role.assistant, "Call a plumber"⟩] [0, 2]
    (by simp) (by simp) (by intro u hu; fin_cases hu <;> rfl)
  rw [h]; decide

theorem mem_of_mem_dedupKeepFirstAux (l : List ℚ) (seen : List ℚ) (q : ℚ)
    (hq : q ∈ dedupKeepFirstAux seen l) : q ∈ l := by
  induction l generalizing seen with
  | nil => simpa [dedupKeepFirstAux] using hq
  | cons x xs ih =>
      by_cases hx : x ∈ seen
      · rw [dedupKeepFirstAux, if_pos hx] at hq
        exact List.mem_cons_of_mem _ (ih _ hq)
      · rw [dedupKeepFirstAux, if_neg hx] at hq
        rcases List.mem_cons.mp hq with h | h
        · simp [h]
        · exact List.mem_cons_of_mem _ (ih _ h)

theorem mem_of_mem_sortSelection (l : List ℚ) (q : ℚ)
    (hq : q ∈ sortSelection l) : q ∈ l :=
  (List.Perm.mem_iff (List.perm_insertionSort (· ≤ ·) l)).mp hq

theorem filterValidSel_eq_filter (turns : List ExportTurn) (l : List ℚ)
    (h : ∀ q ∈ l, q.den = 1) :
    filterValidSel turns l = .ok (l.filter (fun q =>
      decide (0 ≤ q) && decide (q < (turns.length : ℚ)) &&
      decide ((turns.getD q.num.toNat defaultTurn).role = Role.user))) := by
  induction l with
  | nil => rfl
  | cons q qs ih =>
      have hq : q.den = 1 := h q (by simp)
      have hqs : ∀ x ∈ qs, x.den = 1 := fun x hx => h x (by simp [hx])
      by_cases h1 : q < 0
      · have hn : ¬ (0 ≤ q) := not_le.mpr h1
        rw [filterValidSel, if_pos h1, ih hqs]
        simp only [List.filter_cons]
        have hcond : (decide (0 ≤ q) && decide (q < (turns.length : ℚ)) &&
            decide ((turns.getD q.num.toNat defaultTurn).role = Role.user))
              = false := by
          simp [hn]
        rw [hcond]
        simp
      · by_cases h2 : (turns.length : ℚ) ≤ q
        · have hn : ¬ (q < (turns.length : ℚ)) := not_lt.mpr h2
          rw [filterValidSel, if_neg h1, if_pos h2, ih hqs]
          simp only [List.filter_cons]
          have hcond : (decide (0 ≤ q) && decide (q < (turns.length : ℚ)) &&
              decide ((turns.getD q.num.toNat defaultTurn).role = Role.user))
                = false := by
            simp [hn]
          rw [hcond]
          simp
        · have hge : (0 : ℚ) ≤ q := not_lt.mp h1
          have hlt : q < (turns.length : ℚ) := not_le.mp h2
          by_cases h3 : (turns.getD q.num.toNat defaultTurn).role = Role.user
          · rw [filterValidSel, if_neg h1, if_neg h2, if_pos hq, if_pos h3,
              ih hqs]
            simp only [List.filter_cons]
            have hcond : (decide (0 ≤ q) && decide (q < (turns.length : ℚ)) &&
                decide ((turns.getD q.num.toNat defaultTurn).role = Role.user))
                  = true := by
              simp only [List.getD_eq_getElem?_getD] at h3
              simp [hge, hlt, h3]
            rw [hcond]
            rfl
          · rw [filterValidSel, if_neg h1, if_neg h2, if_pos hq, if_neg h3,
              ih hqs]
            simp only [List.filter_cons]
            have hcond : (decide (0 ≤ q) && decide (q < (turns.length : ℚ)) &&
                decide ((turns.getD q.num.toNat defaultTurn).role = Role.user))
                  = false := by
              simp only [List.getD_eq_getElem?_getD] at h3
              simp [h3]
            rw [hcond]
            simp

/-- C2 counterexample: a finite non-integer selection entry inside
`[0, turnCount)` is not silently dropped — it passes `Number.isFinite` and
both range tests, then `allTurns[0.5]` is `undefined` and reading `.role`
throws, so the export fails instead of proceeding. -/
theorem buildSelectedPayloadP2_fraction_counterexample :
    buildSelectedPayloadP2 [⟨Role.user, "q"⟩, ⟨Role.assistant, "a"⟩]
      [JSNum.fin ⟨1, 2, by decide, by decide⟩] = .error () := by
  rfl

/-- C2 (amended): for every raw Selection all of whose finite entries are
integers, entries that are non-finite, outside `[0, turnCount)`, or that do
not reference a user-role turn are silently dropped, and the export proceeds
(without error) using exactly the remaining valid entries, deduplicated and
sorted ascending.  (The original claim also covered finite non-integer
entries; those are not dropped — when such an entry lies inside
`[0, turnCount)` the validation filter throws, see the counterexample.) -/
theorem validateSelection_int_entries (turns : List ExportTurn)
    (raw : List JSNum) (hint : ∀ q ∈ jsFinites raw, q.den = 1) :
    validateSelection turns raw = .ok (specValidEntries turns raw) ∧
    ∃ payload, buildSelectedPayloadP2 turns raw = .ok payload := by
  have hall : ∀ q ∈ sortSelection (dedupKeepFirst (jsFinites raw)), q.den = 1 :=
    fun q hq =>
      hint q (mem_of_mem_dedupKeepFirstAux _ _ q (mem_of_mem_sortSelection _ q hq))
  have hmain : validateSelection turns raw = .ok (specValidEntries turns raw) :=
    filterValidSel_eq_filter turns _ hall
  refine ⟨hmain,
    ⟨(if (specValidEntries turns raw).isEmpty then []
      else expandSelectionClamped turns
        ((specValidEntries turns raw).map (fun q => q.num.toNat))), ?_⟩⟩
  rw [buildSelectedPayloadP2, hmain]
  rfl

/-- Concrete witness for the amended C2: raw selection
`[NaN, 5, 1, 0, 0]` against a `[user, assistant]` document keeps exactly the
entry `0` (NaN is non-finite, `5` is out of range, `1` references an
assistant turn, the duplicate `0` is deduplicated) and the export proceeds. -/
theorem validateSelection_int_entries_witness :
    validateSelection [⟨Role.user, "q"⟩, ⟨Role.assistant, "a"⟩]
        [JSNum.nan, JSNum.fin 5, JSNum.fin 1, JSNum.fin 0, JSNum.fin 0] =
      .ok [(0 : ℚ)] ∧
    buildSelectedPayloadP2 [⟨Role.user, "q"⟩, ⟨Role.assistant, "a"⟩]
        [JSNum.nan, JSNum.fin 5, JSNum.fin 1, JSNum.fin 0, JSNum.fin 0] =
      .ok [⟨Role.user, "q"⟩, ⟨Role.assistant, "a"⟩] := by
  have h := validateSelection_int_entries
    [⟨Role.user, "q"⟩, ⟨Role.assistant, "a"⟩]
    [JSNum.nan, JSNum.fin 5, JSNum.fin 1, JSNum.fin 0, JSNum.fin 0]
    (by decide)
  refine ⟨?_, ?_⟩
  · rw [h.1]; rfl
  · rw [buildSelectedPayloadP2, h.1]; rfl

theorem classifyFold_invariant (f : Elem × List Elem → Option (Elem × Role))
    (l : List (Elem × List Elem)) (seen : List Nat) (out : List (Elem × Role))
    (h1 : (out.map (fun p => p.1.eid)).Nodup)
    (h2 : ∀ p ∈ out, p.1.eid ∈ seen) :
    ((classifyFold f (seen, out) l).2.map (fun p => p.1.eid)).Nodup ∧
    ∀ p ∈ (classifyFold f (seen, out) l).2,
      p.1.eid ∈ (classifyFold f (seen, out) l).1 := by
  induction l generalizing seen out with
  | nil => exact ⟨h1, h2⟩
  | cons x rest ih =>
      rw [classifyFold]
      cases hf : f x with
      | none => exact ih seen out h1 h2
      | some er =>
          obtain ⟨el, r⟩ := er
          dsimp only
          by_cases hel : el.eid ∈ seen
          · rw [if_pos hel]
            exact ih seen out h1 h2
          · rw [if_neg hel]
            apply ih
            · rw [List.map_append, List.nodup_append]
              refine ⟨h1, by simp, ?_⟩
              intro a ha
              simp only [List.map_cons, List.map_nil, List.mem_singleton]
              intro hae
              rcases List.mem_map.mp ha with ⟨p, hp, hpe⟩
              subst hpe
              exact hel (hae ▸ h2 p hp)
            · intro p hp
              rcases List.mem_append.mp hp with h | h
              · exact List.mem_cons_of_mem _ (h2 p h)
              · simp only [List.mem_singleton] at h
                subst h
                simp

/-- C3 counterexample: on `exDoc` the grouped classifier returns the user
container (document position 2) before the assistant block (document
position 1), so the classified pairs are NOT ordered by document order. -/
theorem getMessageTuplesGrouped_order_counterexample :
    (getMessageTuplesGrouped exDoc).map (fun p => (p.1.eid, p.2)) =
      [(2, Role.user), (1, Role.assistant)] ∧
    (getMessageTuplesGrouped exDoc).map (fun p => docIndexOf exDoc p.1.eid) =
      [2, 1] ∧
    ¬ List.Sorted (· ≤ ·)
      ((getMessageTuplesGrouped exDoc).map (fun p => docIndexOf exDoc p.1.eid)) := by
  refine ⟨by decide, by decide, ?_⟩
  have he : (getMessageTuplesGrouped exDoc).map
      (fun p => docIndexOf exDoc p.1.eid) = [2, 1] := by decide
  rw [he]
  intro h
  have h21 := List.rel_of_sorted_cons h 1 (by simp)
  omega

/-- C3 (amended): the grouped classifier never returns the same node twice —
output element identities are pairwise distinct — so the positions consumers
assign (the output indices) are contiguous, zero-based and unique; global
document order, however, does not hold (the user-bubble pass runs before the
assistant pass; see the counterexample). -/
theorem getMessageTuplesGrouped_nodup (doc : DomTree) :
    ((getMessageTuplesGrouped doc).map (fun p => p.1.eid)).Nodup := by
  simp only [getMessageTuplesGrouped]
  have h1 := classifyFold_invariant userRule (flattenWithAnc [] doc) [] []
    (by simp) (by simp)
  have h2 := classifyFold_invariant assistantRule (flattenWithAnc [] doc)
    (classifyFold userRule ([], []) (flattenWithAnc [] doc)).1
    (classifyFold userRule ([], []) (flattenWithAnc [] doc)).2 h1.1 h1.2
  rw [Prod.mk.eta] at h2
  have h3 := classifyFold_invariant legacyRule (flattenWithAnc [] doc)
    (classifyFold assistantRule
      (classifyFold userRule ([], []) (flattenWithAnc [] doc))
      (flattenWithAnc [] doc)).1
    (classifyFold assistantRule
      (classifyFold userRule ([], []) (flattenWithAnc [] doc))
      (flattenWithAnc [] doc)).2 h2.1 h2.2
  rw [Prod.mk.eta] at h3
  exact h3.1

theorem dedupTurnsAux_eq_specDedup (ts : List ExportTurn)
    (seen : List (List Char)) :
    dedupTurnsAux seen ts =
      specDedup (ts.filter (fun u => decide (turnKey u ∉ seen))) := by
  induction ts generalizing seen with
  | nil => simp [dedupTurnsAux, specDedup]
  | cons t rest ih =>
      by_cases ht : turnKey t ∈ seen
      · have hl : List.filter (fun u => decide (turnKey u ∉ seen)) (t :: rest)
            = List.filter (fun u => decide (turnKey u ∉ seen)) rest := by
          rw [List.filter_cons]
          simp [ht]
        rw [dedupTurnsAux, if_pos ht, hl]
        exact ih seen
      · have hl : List.filter (fun u => decide (turnKey u ∉ seen)) (t :: rest)
            = t :: List.filter (fun u => decide (turnKey u ∉ seen)) rest := by
          rw [List.filter_cons]
          simp [ht]
        rw [dedupTurnsAux, if_neg ht, hl, specDedup, ih (turnKey t :: seen),
          List.filter_filter]
        congr 1
        congr 1
        apply List.filter_congr
        intro u _
        by_cases h1 : turnKey u = turnKey t
        · simp [h1, ht]
        · by_cases h2 : turnKey u ∈ seen <;> simp [h1, h2]

/-- C4: the extraction result keeps, among all turns sharing one
`(role, first-80-characters-of-text)` key, exactly the first one: the
seen-set deduplication of `extractTurns` equals keep-first deduplication
(every later turn with an identical key — consecutive or not — is dropped,
and turns with fresh keys are kept in order). -/
theorem dedupTurns_eq_specDedup (ts : List ExportTurn) :
    dedupTurns ts = specDedup ts := by
  rw [dedupTurns, dedupTurnsAux_eq_specDedup]
  congr 1
  apply List.filter_eq_self.mpr
  intro a _
  simp

theorem replaceChar_append (c : Char) (r : List Char) (a b : List Char) :
    replaceChar c r (a ++ b) = replaceChar c r a ++ replaceChar c r b := by
  induction a with
  | nil => rfl
  | cons x xs ih => simp [replaceChar, ih]

theorem escBody_eq_replaces (s : List Char) :
    replaceChar '\n' ['\\', 'n']
      (replaceChar '"' ['\\', '"']
        (replaceChar '\\' ['\\', '\\'] s)) = escBody s := by
  induction s with
  | nil => rfl
  | cons c cs ih =>
      by_cases h1 : c = '\\'
      · subst h1
        simp only [replaceChar, if_pos rfl, escBody, replaceChar_append, ← ih]
        rfl
      · by_cases h2 : c = '"'
        · subst h2
          simp only [replaceChar, if_neg h1, escBody, replaceChar_append, ← ih]
          rfl
        · by_cases h3 : c = '\n'
          · subst h3
            simp only [replaceChar, if_neg h1, if_neg h2, escBody,
              replaceChar_append, ← ih]
            rfl
          · simp only [replaceChar, if_neg h1, if_neg h2, if_neg h3, escBody,
              replaceChar_append, ← ih]
            simp [replaceChar, h1, h2, h3]

theorem unescapeBody_escBody (s : List Char) :
    unescapeBody (escBody s) = s := by
  induction s with
  | nil => rfl
  | cons c cs ih =>
      by_cases h1 : c = '\\'
      · subst h1
        simp [escBody, unescapeBody, ih]
      · by_cases h2 : c = '"'
        · subst h2
          simp [escBody, h1, unescapeBody, ih]
        · by_cases h3 : c = '\n'
          · subst h3
            simp [escBody, h1, h2, unescapeBody, ih]
          · rw [escBody]
            rw [if_neg h1, if_neg h2, if_neg h3, List.singleton_append,
              unescapeBody.eq_def]
            simp [h1, ih]

/-- C5: front-matter serialization by `yamlEscape` round-trips — applying
the documented unescape rule (strip the wrapping quotes, decode `\\`, `\"`
and `\n`) to the serialized field recovers exactly the original string, for
every string (in particular one containing a double quote, a backslash and
an embedded newline); hence the escaping is injective and invertible. -/
theorem yamlEscape_roundTrip :
    (∀ s : List Char, unescapeField (yamlEscape s) = s) ∧
    (∀ a b : List Char, yamlEscape a = yamlEscape b → a = b) := by
  have hround : ∀ s : List Char, unescapeField (yamlEscape s) = s := by
    intro s
    rw [yamlEscape, unescapeField, escBody_eq_replaces]
    have hdrop : ('"' :: escBody s ++ ['"']).drop 1 = escBody s ++ ['"'] := rfl
    rw [hdrop, List.dropLast_concat]
    exact unescapeBody_escBody s
  exact ⟨hround, fun a b h => by rw [← hround a, ← hround b, h]⟩

theorem splitNL_ne_nil (s : List Char) : splitNL s ≠ [] := by
  cases s with
  | nil => simp [splitNL]
  | cons c cs =>
      rw [splitNL]
      cases h : splitNL cs with
      | nil => simp
      | cons w ws => by_cases hc : c = '\n' <;> simp [hc]

theorem splitNL_newline_cons (b : List Char) :
    splitNL ('\n' :: b) = [] :: splitNL b := by
  rw [splitNL]
  cases h : splitNL b with
  | nil => exact absurd h (splitNL_ne_nil b)
  | cons w ws => simp

theorem splitNL_append_newline (a b : List Char) :
    splitNL (a ++ '\n' :: b) = splitNL a ++ splitNL b := by
  induction a with
  | nil => simpa [splitNL] using splitNL_newline_cons b
  | cons c cs ih =>
      by_cases hc : c = '\n'
      · subst hc
        rw [List.cons_append, splitNL_newline_cons, splitNL_newline_cons, ih]
        rfl
      · have hnn := splitNL_ne_nil cs
        rw [List.cons_append, splitNL, ih, splitNL]
        cases hcs : splitNL cs with
        | nil => exact absurd hcs hnn
        | cons w ws => simp [hc]

theorem splitNL_no_newline (a : List Char) (h : '\n' ∉ a) :
    splitNL a = [a] := by
  induction a with
  | nil => rfl
  | cons c cs ih =>
      have hc : c ≠ '\n' := fun he => h (he ▸ List.mem_cons_self c cs)
      have hcs : '\n' ∉ cs := fun hm => h (List.mem_cons_of_mem c hm)
      rw [splitNL, ih hcs]
      simp [hc]

theorem joinSep_splitNL (s : List Char) :
    joinSep ['\n'] (splitNL s) = s := by
  induction s with
  | nil => rfl
  | cons c cs ih =>
      by_cases hc : c = '\n'
      · subst hc
        rw [splitNL_newline_cons]
        cases h : splitNL cs with
        | nil => exact absurd h (splitNL_ne_nil cs)
        | cons w ws =>
            rw [h] at ih
            rw [joinSep]
            simpa using ih
      · rw [splitNL]
        cases h : splitNL cs with
        | nil => exact absurd h (splitNL_ne_nil cs)
        | cons w ws =>
            rw [h] at ih
            simp only [hc, if_false]
            cases ws with
            | nil =>
                rw [joinSep] at ih ⊢
                simpa using ih
            | cons w2 ws2 =>
                rw [joinSep] at ih ⊢
                simpa using ih

theorem joinSep_append_of_ne_nil (sep : List Char) (xs ys : List (List Char))
    (hx : xs ≠ []) (hy : ys ≠ []) :
    joinSep sep (xs ++ ys) = joinSep sep xs ++ sep ++ joinSep sep ys := by
  induction xs with
  | nil => exact absurd rfl hx
  | cons x xs ih =>
      cases xs with
      | nil =>
          cases ys with
          | nil => exact absurd rfl hy
          | cons y ys => simp [joinSep]
      | cons x2 xs2 =>
          have ih2 := ih (by simp)
          simp only [List.cons_append] at ih2 ⊢
          rw [joinSep, ih2, joinSep]
          simp [List.append_assoc]

theorem splitNL_joinSep_cons (l : List Char) (ls : List (List Char))
    (h : ls ≠ []) :
    splitNL (joinSep ['\n'] (l :: ls)) =
      splitNL l ++ splitNL (joinSep ['\n'] ls) := by
  cases ls with
  | nil => exact absurd rfl h
  | cons b bs =>
      rw [show joinSep ['\n'] (l :: b :: bs)
          = l ++ ['\n'] ++ joinSep ['\n'] (b :: bs) from rfl]
      rw [List.append_assoc]
      exact splitNL_append_newline l (joinSep ['\n'] (b :: bs))

theorem labelLine_no_newline (r : Role) : '\n' ∉ labelLine r := by
  cases r <;> decide

theorem isPreambleLine_labelLine (r : Role) :
    isPreambleLine (labelLine r) = false := by
  cases r <;> decide

theorem turnBlock_eq (t : CTurn) :
    turnBlock t = labelLine t.role ++ '\n' :: bodyOf t := by
  simp [turnBlock, labelLine, bodyOf, List.append_assoc]

theorem turnBlock_ne_nil (t : CTurn) : turnBlock t ≠ [] := by
  rw [turnBlock_eq]
  cases t.role <;> simp [labelLine]

theorem splitNL_turnBlock (t : CTurn) :
    splitNL (turnBlock t) = labelLine t.role :: splitNL (bodyOf t) := by
  rw [turnBlock_eq, splitNL_append_newline,
    splitNL_no_newline _ (labelLine_no_newline t.role)]
  rfl

theorem splitNL_joined (t : CTurn) (rest : List CTurn) :
    splitNL (joinSep sepHr ((t :: rest).map turnBlock)) =
      blockLines (t :: rest) := by
  induction rest generalizing t with
  | nil =>
      rw [List.map_cons, List.map_nil,
        show joinSep sepHr [turnBlock t] = turnBlock t from rfl,
        splitNL_turnBlock, blockLines]
      simp
  | cons t2 rest2 ih =>
      have hdec : turnBlock t ++ sepHr ++
            joinSep sepHr (turnBlock t2 :: rest2.map turnBlock)
          = turnBlock t ++ '\n' ::
              ("---".toList ++ '\n' ::
                ('\n' :: joinSep sepHr (turnBlock t2 :: rest2.map turnBlock))) := by
        simp [sepHr]
      have hstep : joinSep sepHr (turnBlock t :: turnBlock t2 :: rest2.map turnBlock)
          = turnBlock t ++ sepHr ++
              joinSep sepHr (turnBlock t2 :: rest2.map turnBlock) := rfl
      rw [List.map_cons, List.map_cons, hstep, hdec, splitNL_append_newline,
        splitNL_append_newline, splitNL_newline_cons,
        splitNL_no_newline "---".toList (by decide), splitNL_turnBlock]
      have hih := ih t2
      rw [List.map_cons] at hih
      rw [hih, blockLines]
      simp

theorem stripTurnLines_false_no_sep (ls : List (List Char))
    (h : "---".toList ∉ ls) : stripTurnLines false ls = ls := by
  induction ls with
  | nil => rfl
  | cons l rest ih =>
      have hl : l ≠ "---".toList := fun he => h (he ▸ List.mem_cons_self l rest)
      have hrest : "---".toList ∉ rest := fun hm => h (List.mem_cons_of_mem l hm)
      cases rest with
      | nil => rfl
      | cons r rs =>
          rw [stripTurnLines]
          simp only [hl, false_and, if_false]
          rw [ih hrest]

theorem stripTurnLines_false_sep (ls after : List (List Char))
    (h : "---".toList ∉ ls) :
    stripTurnLines false (ls ++ "---".toList :: [] :: after) =
      ls ++ stripTurnLines true after := by
  induction ls with
  | nil =>
      rw [List.nil_append, stripTurnLines]
      simp
  | cons l rest ih =>
      have hl : l ≠ "---".toList := fun he => h (he ▸ List.mem_cons_self l rest)
      have hrest : "---".toList ∉ rest := fun hm => h (List.mem_cons_of_mem l hm)
      cases hr : rest ++ "---".toList :: [] :: after with
      | nil => simp at hr
      | cons r rs =>
          rw [List.cons_append, hr, stripTurnLines]
          simp only [hl, false_and, if_false]
          rw [← hr, ih hrest]
          simp

theorem stripTurnLines_blockLines (turns : List CTurn)
    (h : ∀ t ∈ turns, "---".toList ∉ splitNL (bodyOf t)) :
    stripTurnLines true (blockLines turns) =
      ((turns.map (fun t => splitNL (bodyOf t))).flatten) := by
  induction turns with
  | nil => rfl
  | cons t rest ih =>
      have ht : "---".toList ∉ splitNL (bodyOf t) := h t (by simp)
      have hrest : ∀ u ∈ rest, "---".toList ∉ splitNL (bodyOf u) :=
        fun u hu => h u (by simp [hu])
      cases rest with
      | nil =>
          rw [blockLines]
          rw [show stripTurnLines true
                (labelLine t.role :: (splitNL (bodyOf t) ++ []))
              = stripTurnLines false (splitNL (bodyOf t) ++ []) from rfl]
          rw [List.append_nil, stripTurnLines_false_no_sep _ ht]
          simp
      | cons t2 rest2 =>
          rw [blockLines]
          rw [show stripTurnLines true
                (labelLine t.role :: (splitNL (bodyOf t) ++
                  "---".toList :: [] :: blockLines (t2 :: rest2)))
              = stripTurnLines false ((splitNL (bodyOf t) ++
                  "---".toList :: [] :: blockLines (t2 :: rest2))) from rfl]
          rw [stripTurnLines_false_sep _ _ ht, ih hrest]
          simp

theorem joinSep_flatten_splitNL (xs : List (List Char)) :
    joinSep ['\n'] ((xs.map splitNL).flatten) = joinSep ['\n'] xs := by
  induction xs with
  | nil => rfl
  | cons x rest ih =>
      cases rest with
      | nil =>
          simp only [List.map_cons, List.map_nil, List.flatten_cons,
            List.flatten_nil, List.append_nil]
          exact joinSep_splitNL x
      | cons r rest2 =>
          have hne1 : splitNL x ≠ [] := splitNL_ne_nil x
          have hne2 : (((r :: rest2).map splitNL).flatten) ≠ [] := by
            simp only [List.map_cons, List.flatten_cons]
            intro hc
            exact splitNL_ne_nil r (List.append_eq_nil.mp hc).1
          simp only [List.map_cons, List.flatten_cons] at ih ⊢
          have hflat : splitNL r ++ (rest2.map splitNL).flatten
              = ((r :: rest2).map splitNL).flatten := by simp
          rw [hflat, joinSep_append_of_ne_nil _ _ _ hne1 hne2, joinSep_splitNL]
          have hjs : joinSep ['\n'] (((r :: rest2).map splitNL).flatten)
              = joinSep ['\n'] (r :: rest2) := by
            simpa using ih
          rw [hjs]
          rfl

theorem replaceCRLF_no_cr (s : List Char) (h : '\r' ∉ s) :
    replaceCRLF s = s := by
  induction s with
  | nil => rfl
  | cons c cs ih =>
      have hc : c ≠ '\r' := fun he => h (he ▸ List.mem_cons_self c cs)
      have hcs : '\r' ∉ cs := fun hm => h (List.mem_cons_of_mem c hm)
      rw [replaceCRLF.eq_def]
      simp [hc, ih hcs]

theorem bodyOf_eq_text (t : CTurn) (h : goodText t.text) :
    bodyOf t = t.text := by
  rw [bodyOf, replaceCRLF_no_cr _ h.1, h.2.1]

theorem joined_ne_nil (t : CTurn) (rest : List CTurn) :
    joinSep sepHr ((t :: rest).map turnBlock) ≠ [] := by
  cases rest with
  | nil =>
      rw [List.map_cons, List.map_nil]
      exact turnBlock_ne_nil t
  | cons t2 rest2 =>
      rw [List.map_cons, List.map_cons]
      rw [show joinSep sepHr
            (turnBlock t :: turnBlock t2 :: rest2.map turnBlock)
          = turnBlock t ++ sepHr ++
            joinSep sepHr (turnBlock t2 :: rest2.map turnBlock) from rfl]
      intro hc
      rcases List.append_eq_nil.mp hc with ⟨hc1, -⟩
      rcases List.append_eq_nil.mp hc1 with ⟨hc2, -⟩
      exact turnBlock_ne_nil t hc2

theorem dropThroughDashes_skip (middle rest : List (List Char))
    (h : "---".toList ∉ middle) :
    dropThroughDashes (middle ++ "---".toList :: rest) = rest := by
  induction middle with
  | nil => simp [dropThroughDashes]
  | cons m ms ih =>
      have hm : m ≠ "---".toList := fun he => h (he ▸ List.mem_cons_self m ms)
      have hms : "---".toList ∉ ms := fun hmem => h (List.mem_cons_of_mem m hmem)
      rw [List.cons_append, dropThroughDashes, if_neg hm, ih hms]

/-- C6 (amended): for every turn sequence whose texts contain no carriage
return, no trailing whitespace and no line equal to `---`, stripping the
structural markers added by the plain-mode renderer (front matter, title
heading, `Source:`/`Exported:` rows, role-label lines, `---` separators and
the trailing blank line) reproduces exactly the newline-joined original
turn texts in turn order.  (Unrestricted, the round trip is impossible: the
renderer trims trailing whitespace, so distinct texts can render to the
same document — see the counterexample.) -/
theorem stripPlain_toPureMarkdownChatStyle (turns : List CTurn)
    (hg : ∀ t ∈ turns, goodText t.text) :
    stripPlainC (toPureMarkdownChatStyleC exMeta turns) =
      joinSep ['\n'] (turns.map (fun t => t.text)) := by
  cases turns with
  | nil => decide
  | cons t rest =>
      have hbody : ∀ u ∈ t :: rest, bodyOf u = u.text :=
        fun u hu => bodyOf_eq_text u (hg u hu)
      have hsepf : ∀ u ∈ t :: rest, "---".toList ∉ splitNL (bodyOf u) := by
        intro u hu
        rw [hbody u hu]
        exact (hg u hu).2.2
      have hJne := joined_ne_nil t rest
      have hcond :
          ¬ (([renderFrontMatterC exMeta, "# T".toList, [],
              "Source: u".toList, "Exported: e".toList, [],
              joinSep sepHr ((t :: rest).map turnBlock)] :
                List (List Char)).getLast? = some []) := by
        simp only [List.getLast?_cons_cons, List.getLast?_singleton,
          Option.some.injEq]
        exact hJne
      have h1 : toPureMarkdownChatStyleC exMeta (t :: rest)
          = joinSep ['\n']
              (if (([renderFrontMatterC exMeta, "# T".toList, [],
                    "Source: u".toList, "Exported: e".toList, [],
                    joinSep sepHr ((t :: rest).map turnBlock)] :
                      List (List Char)).getLast? = some []) then
                 [renderFrontMatterC exMeta, "# T".toList, [],
                  "Source: u".toList, "Exported: e".toList, [],
                  joinSep sepHr ((t :: rest).map turnBlock)]
               else
                 [renderFrontMatterC exMeta, "# T".toList, [],
                  "Source: u".toList, "Exported: e".toList, [],
                  joinSep sepHr ((t :: rest).map turnBlock)] ++ [[]]) := rfl
      rw [h1, if_neg hcond]
      have hsFM : splitNL (renderFrontMatterC exMeta) =
          ["---".toList, "noteId: ext-1".toList, "source: chatgpt".toList,
           "chatTitle: T".toList, "pageUrl: u".toList, "exportedAt: e".toList,
           "tags: []".toList, "---".toList, []] := by decide
      have hsT : splitNL "# T".toList = ["# T".toList] := by decide
      have hsS : splitNL "Source: u".toList = ["Source: u".toList] := by decide
      have hsE : splitNL "Exported: e".toList = ["Exported: e".toList] := by
        decide
      rw [stripPlainC]
      have hlist : ([renderFrontMatterC exMeta, "# T".toList, [],
            "Source: u".toList, "Exported: e".toList, [],
            joinSep sepHr ((t :: rest).map turnBlock)] ++ [[]] :
              List (List Char))
          = renderFrontMatterC exMeta :: "# T".toList :: ([] : List Char) ::
              "Source: u".toList :: "Exported: e".toList :: ([] : List Char) ::
              joinSep sepHr ((t :: rest).map turnBlock) :: [[]] := by simp
      rw [hlist]
      rw [splitNL_joinSep_cons _ _ (by simp), hsFM]
      rw [splitNL_joinSep_cons _ _ (by simp), hsT]
      rw [splitNL_joinSep_cons _ _ (by simp)]
      rw [splitNL_joinSep_cons _ _ (by simp), hsS]
      rw [splitNL_joinSep_cons _ _ (by simp), hsE]
      rw [splitNL_joinSep_cons _ _ (by simp)]
      rw [splitNL_joinSep_cons _ _ (by simp), splitNL_joined t rest]
      have hsnil : splitNL (joinSep ['\n'] [[]]) = [[]] := rfl
      rw [hsnil]
      have hzero : splitNL ([] : List Char) = [[]] := rfl
      rw [hzero]
      obtain ⟨inner, hbl⟩ :
          ∃ inner, blockLines (t :: rest) = labelLine t.role :: inner :=
        ⟨_, rfl⟩
      have hlines :
          (["---".toList, "noteId: ext-1".toList, "source: chatgpt".toList,
            "chatTitle: T".toList, "pageUrl: u".toList, "exportedAt: e".toList,
            "tags: []".toList, "---".toList, []] ++
            (["# T".toList] ++ ([[]] ++ (["Source: u".toList] ++
              (["Exported: e".toList] ++
                ([[]] ++ (blockLines (t :: rest) ++ [[]])))))))
          = "---".toList ::
              (["noteId: ext-1".toList, "source: chatgpt".toList,
                "chatTitle: T".toList, "pageUrl: u".toList,
                "exportedAt: e".toList, "tags: []".toList] ++
                "---".toList ::
                  (([] : List Char) :: "# T".toList :: ([] : List Char) ::
                    "Source: u".toList :: "Exported: e".toList ::
                    ([] : List Char) ::
                    (labelLine t.role :: (inner ++ [[]])))) := by
        rw [hbl]
        simp
      rw [hlines, dropFM, if_pos rfl, dropThroughDashes_skip _ _ (by decide)]
      have e1 : isPreambleLine ([] : List Char) = true := by decide
      have e2 : isPreambleLine "# T".toList = true := by decide
      have e3 : isPreambleLine "Source: u".toList = true := by decide
      have e4 : isPreambleLine "Exported: e".toList = true := by decide
      have hdp : dropPreamble
            (([] : List Char) :: "# T".toList :: ([] : List Char) ::
              "Source: u".toList :: "Exported: e".toList :: ([] : List Char) ::
              (labelLine t.role :: (inner ++ [[]])))
          = labelLine t.role :: (inner ++ [[]]) := by
        simp +decide [dropPreamble, List.dropWhile_cons, e1, e2, e3, e4,
          isPreambleLine_labelLine t.role]
      rw [hdp]
      have hcc : labelLine t.role :: (inner ++ [[]])
          = (labelLine t.role :: inner) ++ [[]] := by simp
      rw [hcc, List.getLast?_concat, if_pos rfl, List.dropLast_concat, ← hbl]
      rw [stripTurnLines_blockLines (t :: rest) hsepf]
      have hmapb : (t :: rest).map (fun u => splitNL (bodyOf u))
          = (t :: rest).map (fun u => splitNL u.text) := by
        apply List.map_congr_left
        intro u hu
        rw [hbody u hu]
      rw [hmapb]
      have hmm : (t :: rest).map (fun u => splitNL u.text)
          = ((t :: rest).map (fun u => u.text)).map splitNL := by
        rw [List.map_map]
        rfl
      rw [hmm, joinSep_flatten_splitNL]

set_option maxRecDepth 8192 in
/-- C6 counterexample: the plain-mode renderer trims trailing whitespace
from every turn body, so the two distinct texts `"hi \n"` and `"hi"`
render to identical documents — no marker-stripping function can reproduce
both originals, hence the unrestricted round-trip claim is false. -/
theorem toPureMarkdownChatStyle_not_injective :
    toPureMarkdownChatStyleC exMeta [⟨Role.user, "hi \n".toList⟩] =
      toPureMarkdownChatStyleC exMeta [⟨Role.user, "hi".toList⟩] ∧
    ("hi \n".toList ≠ "hi".toList) := by
  constructor
  · decide
  · decide

set_option maxRecDepth 8192 in
/-- Concrete witness for the amended C6: a two-turn document renders and
strips back to exactly its newline-joined turn texts. -/
theorem stripPlain_toPureMarkdownChatStyle_witness :
    stripPlainC (toPureMarkdownChatStyleC exMeta
      [⟨Role.user, "hello".toList⟩, ⟨Role.assistant, "world\nfoo".toList⟩]) =
    "hello\nworld\nfoo".toList := by
  have h := stripPlain_toPureMarkdownChatStyle
    [⟨Role.user, "hello".toList⟩, ⟨Role.assistant, "world\nfoo".toList⟩]
    (by
      intro u hu
      fin_cases hu
      · exact ⟨by decide, by decide, by decide⟩
      · exact ⟨by decide, by decide, by decide⟩)
  rw [h]
  decide

theorem digitChar_decode (d : Nat) (h : d < 10) :
    (digitChar d).toNat - 48 = d := by
  interval_cases d <;> decide

theorem decodeDigits_append_digit (a : List Char) (c : Char) :
    decodeDigits (a ++ [c]) = decodeDigits a * 10 + (c.toNat - 48) := by
  rw [decodeDigits, decodeDigits, List.foldl_append]
  rfl

theorem decode_natDigits (n : Nat) : decodeDigits (natDigits n) = n := by
  induction n using Nat.strong_induction_on with
  | _ n ih =>
      by_cases h : n < 10
      · rw [natDigits, dif_pos h, decodeDigits]
        simpa using digitChar_decode n h
      · rw [natDigits, dif_neg h, decodeDigits_append_digit,
          ih (n / 10) (Nat.div_lt_self (by omega) (by omega)),
          digitChar_decode _ (Nat.mod_lt _ (by omega))]
        omega

theorem natDigits_injective (a b : Nat) (h : natDigits a = natDigits b) :
    a = b := by
  rw [← decode_natDigits a, ← decode_natDigits b, h]

theorem anchorOf_injective (a b : Nat) (h : anchorOf a = anchorOf b) :
    a = b := by
  rw [anchorOf, anchorOf] at h
  simp only [List.cons.injEq, true_and] at h
  exact natDigits_injective a b h

theorem tocEntriesAux_ordinals (turns : List ExportTurn) (seen : Nat) :
    (tocEntriesAux seen turns).map (fun e => e.ordinal)
      = List.range' (seen + 1)
          (turns.countP (fun t => decide (t.role = Role.user))) ∧
    ∀ e ∈ tocEntriesAux seen turns, e.anchor = anchorOf e.ordinal := by
  induction turns generalizing seen with
  | nil => simp [tocEntriesAux]
  | cons t rest ih =>
      by_cases ht : t.role = Role.user
      · rw [tocEntriesAux, if_pos ht]
        refine ⟨?_, ?_⟩
        · rw [List.map_cons, (ih (seen + 1)).1, List.countP_cons]
          have hone : (rest.countP (fun t => decide (t.role = Role.user)) +
              if decide (t.role = Role.user) = true then 1 else 0)
              = rest.countP (fun t => decide (t.role = Role.user)) + 1 := by
            simp [ht]
          rw [hone, List.range'_succ]
        · intro e he
          rcases List.mem_cons.mp he with he | he
          · subst he
            rfl
          · exact (ih (seen + 1)).2 e he
      · rw [tocEntriesAux, if_neg ht]
        refine ⟨?_, fun e he => (ih seen).2 e he⟩
        rw [(ih seen).1, List.countP_cons]
        simp [ht]

/-- C7 (spec-modelled): the table of contents of one render contains
exactly one entry per user turn; the entry ordinals are `1, …, n` in order
(`n` the number of user turns), hence strictly increasing; each entry's
anchor is `p-<ordinal>` where the ordinal is the 1-based count of user
turns seen so far; and the anchors of one render are pairwise distinct. -/
theorem tocEntries_spec (turns : List ExportTurn) :
    (tocEntries turns).length
        = turns.countP (fun t => decide (t.role = Role.user)) ∧
    (tocEntries turns).map (fun e => e.ordinal)
        = List.range' 1 (turns.countP (fun t => decide (t.role = Role.user))) ∧
    List.Pairwise (· < ·) ((tocEntries turns).map (fun e => e.ordinal)) ∧
    (∀ e ∈ tocEntries turns, e.anchor = anchorOf e.ordinal) ∧
    ((tocEntries turns).map (fun e => e.anchor)).Nodup := by
  have h := tocEntriesAux_ordinals turns 0
  have hmap : (tocEntries turns).map (fun e => e.ordinal)
      = List.range' 1 (turns.countP (fun t => decide (t.role = Role.user))) :=
    h.1
  have hanchor : ∀ e ∈ tocEntries turns, e.anchor = anchorOf e.ordinal := h.2
  refine ⟨?_, hmap, ?_, hanchor, ?_⟩
  · have hlen := congrArg List.length hmap
    simpa using hlen
  · rw [hmap]
    exact List.pairwise_lt_range' 1 _
  · have hcomp : (tocEntries turns).map (fun e => e.anchor)
        = ((tocEntries turns).map (fun e => e.ordinal)).map anchorOf := by
      rw [List.map_map]
      apply List.map_congr_left
      intro e he
      exact hanchor e he
    rw [hcomp, hmap]
    exact (List.nodup_range' 1 _).map_on
      (fun a _ b _ hab => anchorOf_injective a b hab)

/-- C8: every run of `ensureFloatingUI`, whether the rebuild body returns
normally or exits with an exception at any point, leaves the
mutation-observer suspension flag `false`, because the `finally` block
always executes `suspendObservers(false)`. -/
theorem ensureFloatingUI_releases_suspension {E D : Type} (body : D → Except E D)
    (suspended : Bool) (dom : D) :
    (ensureFloatingUIRun body suspended dom).observersSuspended = false := by
  unfold ensureFloatingUIRun
  cases body dom <;> rfl

/-- C10: a mutation batch delivered while the control surface exists that
contains at least one mutation targeting a node inside the control-surface
subtree is ignored entirely: the observer callback returns without updating
the throttle clock or scheduling a reaction, even if the same batch also
contains mutations outside the control surface. -/
theorem observer_ignores_self_batch (s : MState) (t : Nat) (batch : List Bool)
    (hroot : s.rootExists = true) (hin : batch.any id = true) :
    observerCallback t batch s = s := by
  unfold observerCallback
  split
  · rfl
  · split
    · rfl
    · rename_i h2
      exact absurd (by simp [hroot, hin]) h2

theorem observer_ignores_self_batch_witness :
    mSelf.rootExists = true ∧ ([false, true, false].any id = true) ∧
    observerCallback 1000 [false, true, false] mSelf = mSelf :=
  ⟨rfl, rfl, observer_ignores_self_batch mSelf 1000 [false, true, false] rfl rfl⟩

/-- C9 counterexample: the burst-coalescing half of the claim fails. From
the initial state, a notification at t = 300 ms is accepted and its reaction
runs; a second notification burst at t = 400 ms falls inside the 200 ms
throttle window and is discarded with `scheduled = false`, so no pending
reaction exists for it and `runs` stays at 1 — the burst is silently
dropped, not coalesced into a reaction that eventually runs. -/
theorem observer_burst_discarded_counterexample :
    (mrun m0 [MEvent.notify 300 [false], MEvent.rafFire,
              MEvent.notify 400 [false]]).runs = 1 ∧
    (mrun m0 [MEvent.notify 300 [false], MEvent.rafFire,
              MEvent.notify 400 [false]]).scheduled = false := by
  decide

/-- C9 (amended): the observer is rate-limited to at most one accepted
reaction per 200 ms window, and reactions are deferred, never run inside the
callback: whenever a notification changes the observer state at all, the
previous accepted time is at least 200 ms old, the throttle clock is set to
the notification time, a (single) reaction is left pending in the
`scheduled` flag, and no reaction has run synchronously; and any
notification arriving strictly less than 200 ms after the last accepted one
leaves the state completely unchanged (it is discarded, not queued). -/
theorem observer_throttle_spec (s : MState) (t : Nat) (batch : List Bool) :
    (observerCallback t batch s ≠ s →
      s.lastRun + OBSERVER_THROTTLE_MS ≤ t ∧
      (observerCallback t batch s).lastRun = t ∧
      (observerCallback t batch s).scheduled = true ∧
      (observerCallback t batch s).runs = s.runs) ∧
    (t < s.lastRun + OBSERVER_THROTTLE_MS → observerCallback t batch s = s) := by
  unfold observerCallback
  split
  · exact ⟨fun h => absurd rfl h, fun _ => rfl⟩
  · split
    · exact ⟨fun h => absurd rfl h, fun _ => rfl⟩
    · split
      · exact ⟨fun h => absurd rfl h, fun _ => rfl⟩
      · rename_i h1 h2 h3
        constructor
        · intro _
          refine ⟨by unfold OBSERVER_THROTTLE_MS at *; omega, ?_, ?_, ?_⟩
          · split <;> rfl
          · split
            · rename_i hs; exact hs
            · rfl
          · split <;> rfl
        · intro hlt
          exact absurd (by unfold OBSERVER_THROTTLE_MS at *; omega) h3

theorem observer_throttle_spec_witness :
    m0.lastRun + OBSERVER_THROTTLE_MS ≤ 300 ∧
    (observerCallback 300 [false] m0).lastRun = 300 ∧
    (observerCallback 300 [false] m0).scheduled = true ∧
    (observerCallback 300 [false] m0).runs = m0.runs :=
  (observer_throttle_spec m0 300 [false]).1 (by decide)

